import Mathlib

/-!
Verification of the golangAnnotations source-to-model extraction engine.

The Go sources (parser/parser.go and the rest-annotation validators) are
shallowly embedded below: Go AST node shapes become inductive types, the
extraction functions become Lean functions following the Go control flow
statement by statement, and the directory-level aggregation becomes a
function over a list of per-file parse results (the Go standard-library
parser is external to the repository and is modelled as an oracle that
either yields a file's AST or a syntax error).
-/

namespace GoModel

/-- One comment group: the ordered list of the raw text of its comment
lines (mirrors ast.CommentGroup, whose List the Go code reads line by
line via line.Text); a nil group pointer is none. -/
abbrev CommentGroup := Option (List String)

/-- Go type expressions, as far as _extractField inspects them.  funcT
abstracts over the signature because _extractField never looks inside a
function type; mapT, chanT, selector and otherExpr cover the remaining
ast.Expr shapes that the extractor does not recognize. -/
inductive Expr where
  | ident (name : String)
  | star (x : Expr)
  | array (elt : Expr)
  | funcT
  | mapT (key value : Expr)
  | chanT (elt : Expr)
  | selector (x : Expr) (sel : String)
  | otherExpr
deriving DecidableEq, Repr

/-- ast.Field: a field-like declaration unit -- zero or more names sharing
one type expression, with optional doc group, tag literal and trailing
comment group. -/
structure AstField where
  doc : CommentGroup := none
  names : List String := []
  type : Expr := Expr.otherExpr
  tag : Option String := none
  comment : CommentGroup := none
deriving DecidableEq, Repr

/-- model.Field, with Go zero values as defaults. -/
structure Field where
  name : String := ""
  typeName : String := ""
  isPointer : Bool := false
  isSlice : Bool := false
  tag : String := ""
  docLines : List String := []
  commentLines : List String := []
deriving DecidableEq, Repr

/-- extractDocLines: collects each comment line's text in order; a nil
group yields the empty list.  Since a CommentGroup is already the list of
its lines, the fold of appends in the Go code is the identity on it. -/
def extractDocLines : CommentGroup → List String
  | none => []
  | some ls => ls

/-- extractComments: same shape as extractDocLines, used for a field's
trailing comment group. -/
def extractComments : CommentGroup → List String
  | none => []
  | some ls => ls

/-- extractTag: a present tag literal yields (its value, true), a nil tag
yields ("", false). -/
def extractTag : Option String → String × Bool
  | some t => (t, true)
  | none => ("", false)

/-- The prelude of Go's _extractField: a zero Field whose DocLines,
CommentLines and Tag have been filled in from the input unit (the three
assignments before the type dispatch). -/
def baseField (input : AstField) : Field :=
  let field : Field := {}
  let field := { field with docLines := extractDocLines input.doc }
  let field := { field with commentLines := extractComments input.comment }
  match extractTag input.tag with
  | (t, true) => { field with tag := t }
  | (_, false) => field

/-- _extractField: the type dispatch of parser.go.  An array type sets
IsSlice and resolves a plain-ident or star-of-ident element; a star of an
ident sets IsPointer and the pointee name; a plain ident sets the name;
every other shape leaves TypeName empty and both flags false.  The three
Go type assertions are mutually exclusive, so they become one match. -/
def _extractField (input : AstField) : Field :=
  let field := baseField input
  match input.type with
  | Expr.array elt =>
      let field := { field with isSlice := true }
      (match elt with
       | Expr.ident nm => { field with typeName := nm }
       | Expr.star (Expr.ident nm) => { field with typeName := nm, isPointer := true }
       | _ => field)
  | Expr.star (Expr.ident nm) => { field with typeName := nm, isPointer := true }
  | Expr.ident nm => { field with typeName := nm }
  | _ => field

/-- extractFields: a unit with no names yields the single anonymous field;
a unit with names yields one field per name, in order, each a copy of
_extractField's output with that name filled in. -/
def extractFields (input : AstField) : List Field :=
  match input.names with
  | [] => [_extractField input]
  | names => names.map (fun nm => { _extractField input with name := nm })

/-- extractFieldList: flattens extractFields over a field list; a nil list
pointer yields the empty list (the Go loop of appends is a left fold). -/
def extractFieldList : Option (List AstField) → List Field
  | none => []
  | some l => l.foldl (fun fields p => fields ++ extractFields p) []

/-- annotation.Annotation (named Annot here): a name with a string-to-string
attribute table, modelled as an association list with unique keys looked up
via List.lookup. -/
structure Annot where
  name : String := ""
  attributes : List (String × String) := []
deriving DecidableEq, Repr

def typeRestOperation : String := "RestOperation"

def typeRestService : String := "RestService"

def paramPath : String := "path"

def paramMethod : String := "method"

/-- validateRestOperationAnnotation of restOperationAnnotation.go: accepts
when the name is RestOperation and both path and method attributes are
present and non-empty (a Go map read gives (value, ok); absent keys make
the conjunction false). -/
def validateRestOperationAnnot (annot : Annot) : Bool :=
  if annot.name = typeRestOperation then
    (match annot.attributes.lookup paramPath with
     | some path => path != ""
     | none => false)
    &&
    (match annot.attributes.lookup paramMethod with
     | some m => m != ""
     | none => false)
  else
    false

/-- validateRestServiceAnnotation of restOperationAnnotation.go: accepts
when the name is RestService and the path attribute is present -- only the
comma-ok presence bit is read, the value itself (possibly empty) is
discarded. -/
def validateRestServiceAnnot (annot : Annot) : Bool :=
  if annot.name = typeRestService then
    (annot.attributes.lookup paramPath).isSome
  else
    false

/-- model.Operation, with Go zero values as defaults. -/
structure Operation where
  packageName : String := ""
  docLines : List String := []
  relatedStruct : Option Field := none
  name : String := ""
  inputArgs : List Field := []
  outputArgs : List Field := []
deriving DecidableEq, Repr

/-- model.Struct, with Go zero values as defaults. -/
structure Struct where
  packageName : String := ""
  docLines : List String := []
  name : String := ""
  fields : List Field := []
  operations : List Operation := []
deriving DecidableEq, Repr

/-- model.Interface, with Go zero values as defaults. -/
structure Interface where
  packageName : String := ""
  docLines : List String := []
  name : String := ""
  methods : List Operation := []
deriving DecidableEq, Repr

/-- The type carried by one interface method entry: either a function
signature (ast.FuncType, with its parameter and result field lists) or an
embedded/other shape whose type assertion to FuncType fails. -/
inductive MethodType where
  | funcType (params : Option (List AstField)) (results : Option (List AstField))
  | embedded (t : Expr)
deriving DecidableEq, Repr

/-- One entry of an interface's method field list: doc group, names and
carried type. -/
structure MethodSpec where
  doc : CommentGroup := none
  names : List String := []
  type : MethodType
deriving DecidableEq, Repr

/-- The underlying type of an ast.TypeSpec: a struct type (with its field
list pointer), an interface type (with its method list), or any other
shape. -/
inductive TypeSpecType where
  | structType (fields : Option (List AstField))
  | interfaceType (methods : List MethodSpec)
  | otherType
deriving DecidableEq, Repr

/-- ast.TypeSpec: declared type name plus underlying type shape. -/
structure TypeSpec where
  name : String
  type : TypeSpecType
deriving DecidableEq, Repr

/-- ast.Spec: a type spec or any other spec kind (import/value specs,
whose type assertion to TypeSpec fails). -/
inductive Spec where
  | typeSpec (ts : TypeSpec)
  | otherSpec
deriving DecidableEq, Repr

/-- ast.GenDecl: leading doc group and spec list. -/
structure GenDecl where
  doc : CommentGroup := none
  specs : List Spec := []
deriving DecidableEq, Repr

/-- ast.FuncDecl: leading doc group, optional receiver field list,
optional name ident, and the parameter/result field lists of its
ast.FuncType. -/
structure FuncDecl where
  doc : CommentGroup := none
  recv : Option (List AstField) := none
  name : Option String := none
  params : Option (List AstField) := none
  results : Option (List AstField) := none
deriving DecidableEq, Repr

/-- A top-level declaration node of one file. -/
inductive Decl where
  | genDecl (gd : GenDecl)
  | funcDecl (fd : FuncDecl)
  | otherDecl
deriving DecidableEq, Repr

/-- The AST node shapes the visitor's type assertions distinguish: the
file node itself (carrying the package clause ident, nil when absent) and
declaration nodes. -/
inductive Node where
  | fileNode (name : Option String)
  | declNode (d : Decl)
deriving DecidableEq, Repr

/-- One parsed source file: its package clause name and its declarations,
walked in order. -/
structure GoFile where
  name : Option String := none
  decls : List Decl := []
deriving DecidableEq, Repr

/-- extractInterfaceMethods: every method entry with at least one name
whose type is a function type becomes one Operation named after the first
name, with doc lines from the entry's doc group and arguments from the
field extractor; entries without names, or whose FuncType assertion
fails, contribute nothing (the Go loop of appends is a left fold). -/
def extractInterfaceMethods (fl : List MethodSpec) : List Operation :=
  fl.foldl
    (fun methods m =>
      match m.names with
      | [] => methods
      | n :: _ =>
        match m.type with
        | MethodType.funcType ps rs =>
            methods ++ [{ docLines := extractDocLines m.doc, name := n,
                          inputArgs := extractFieldList ps,
                          outputArgs := extractFieldList rs }]
        | MethodType.embedded _ => methods)
    []

/-- extractSpecsForStruct: only specs[0] is examined; if it is a TypeSpec
the name is recorded, and only if its underlying type is a struct type
are the fields extracted and found set. -/
def extractSpecsForStruct : List Spec → Struct × Bool
  | Spec.typeSpec ts :: _ =>
      (match ts.type with
       | TypeSpecType.structType fl => ({ name := ts.name, fields := extractFieldList fl }, true)
       | _ => ({ name := ts.name }, false))
  | _ => ({}, false)

/-- extractSpecsForInterface: same shape as extractSpecsForStruct, for
interface types. -/
def extractSpecsForInterface : List Spec → Interface × Bool
  | Spec.typeSpec ts :: _ =>
      (match ts.type with
       | TypeSpecType.interfaceType ms =>
           ({ name := ts.name, methods := extractInterfaceMethods ms }, true)
       | _ => ({ name := ts.name }, false))
  | _ => ({}, false)

/-- extractGenDeclForStruct: a GenDecl node's specs are run through
extractSpecsForStruct and the declaration's doc group becomes the
struct's DocLines (the Go code sets DocLines whenever the node is a
GenDecl, its inner `if ok` rechecking the assertion that already held). -/
def extractGenDeclForStruct : Node → Struct × Bool
  | Node.declNode (Decl.genDecl gd) =>
      (match extractSpecsForStruct gd.specs with
       | (str, found) => ({ str with docLines := extractDocLines gd.doc }, found))
  | _ => ({}, false)

/-- extractGenDecForInterface: the interface twin of
extractGenDeclForStruct (the Go name's missing l is kept). -/
def extractGenDecForInterface : Node → Interface × Bool
  | Node.declNode (Decl.genDecl gd) =>
      (match extractSpecsForInterface gd.specs with
       | (iface, found) => ({ iface with docLines := extractDocLines gd.doc }, found))
  | _ => ({}, false)

/-- extractPackageName: found exactly on the file node; a nil package
ident leaves the name empty. -/
def extractPackageName : Node → String × Bool
  | Node.fileNode nm => (nm.getD "", true)
  | _ => ("", false)

/-- extractOperation: a FuncDecl node yields an Operation with doc lines
from its doc group; a present receiver list contributes its first
extracted field as RelatedStruct; a present name ident, parameter list
and result list fill Name, InputArgs and OutputArgs respectively. -/
def extractOperation : Node → Operation × Bool
  | Node.declNode (Decl.funcDecl fd) =>
      let oper : Operation := { docLines := extractDocLines fd.doc }
      let oper :=
        match fd.recv with
        | some recv =>
            (match extractFieldList (some recv) with
             | r :: _ => { oper with relatedStruct := some r }
             | [] => oper)
        | none => oper
      let oper :=
        match fd.name with
        | some n => { oper with name := n }
        | none => oper
      let oper :=
        match fd.params with
        | some _ => { oper with inputArgs := extractFieldList fd.params }
        | none => oper
      let oper :=
        match fd.results with
        | some _ => { oper with outputArgs := extractFieldList fd.results }
        | none => oper
      (oper, true)
  | _ => ({}, false)

/-- The accumulating visitor (the Harvest): current package name and the
flat entity lists. -/
structure AstVisitor where
  packageName : String := ""
  structs : List Struct := []
  operations : List Operation := []
  interfaces : List Interface := []
deriving DecidableEq, Repr

/-- The package-name step of Visit: a recovered package name replaces the
current one. -/
def visitPackageStep (v : AstVisitor) (node : Node) : AstVisitor :=
  match extractPackageName node with
  | (p, true) => { v with packageName := p }
  | (_, false) => v

/-- The struct step of Visit: a successful extraction is tagged with the
current package name and appended. -/
def visitStructStep (v : AstVisitor) (node : Node) : AstVisitor :=
  match extractGenDeclForStruct node with
  | (str, true) => { v with structs := v.structs ++ [{ str with packageName := v.packageName }] }
  | (_, false) => v

/-- The interface step of Visit. -/
def visitInterfaceStep (v : AstVisitor) (node : Node) : AstVisitor :=
  match extractGenDecForInterface node with
  | (iface, true) =>
      { v with interfaces := v.interfaces ++ [{ iface with packageName := v.packageName }] }
  | (_, false) => v

/-- The operation step of Visit. -/
def visitOperationStep (v : AstVisitor) (node : Node) : AstVisitor :=
  match extractOperation node with
  | (oper, true) =>
      { v with operations := v.operations ++ [{ oper with packageName := v.packageName }] }
  | (_, false) => v

/-- AstVisitor.Visit on one non-nil node: the package-name step runs
first, then the three extraction steps, exactly in the Go order. -/
def AstVisitor.visit (v : AstVisitor) (node : Node) : AstVisitor :=
  visitOperationStep
    (visitInterfaceStep (visitStructStep (visitPackageStep v node) node) node)
    node

/-- ast.Walk over one file: the file node is visited first (recovering
the package clause), then each declaration node in order. -/
def walkFile (v : AstVisitor) (f : GoFile) : AstVisitor :=
  f.decls.foldl (fun acc d => acc.visit (Node.declNode d)) (v.visit (Node.fileNode f.name))

/-- The per-file walks of ParseSourceDir, folded over every parsed file
starting from the zero visitor. -/
def harvestFiles (files : List GoFile) : AstVisitor :=
  files.foldl walkFile {}

/-- Appending an operation to the struct the Go name-to-pointer map
selects: the map is built by iterating the struct list in order, so a
duplicate name leaves the pointer to the *last* struct with that name,
and the append through that pointer updates exactly that element.  The
caller only invokes this when some struct carries the name. -/
def appendOpToLast : List Struct → String → Operation → List Struct
  | [], _, _ => []
  | s :: rest, tn, op =>
      if rest.any (fun s2 => s2.name == tn) then
        s :: appendOpToLast rest tn op
      else if s.name == tn then
        { s with operations := s.operations ++ [op] } :: rest
      else
        s :: rest

/-- One iteration of the cross-linking loop: an operation without a
receiver, or whose receiver type name no struct carries, changes nothing;
otherwise the operation value (a fresh copy, as in the Go loop) is
appended to the matched struct's Operations. -/
def crossLinkOne (structs : List Struct) (op : Operation) : List Struct :=
  match op.relatedStruct with
  | none => structs
  | some rs =>
      if structs.any (fun s => s.name == rs.typeName) then
        appendOpToLast structs rs.typeName op
      else
        structs

/-- The cross-linking pass of ParseSourceDir: every operation in order is
run through crossLinkOne.  Folding over the evolving struct list agrees
with Go's build-the-map-first order because the pass never changes any
struct's Name. -/
def crossLink (structs : List Struct) (ops : List Operation) : List Struct :=
  ops.foldl crossLinkOne structs

/-- What the external Go parser yields for one file: its AST, or a syntax
error message. -/
inductive ParseResult where
  | ok (f : GoFile)
  | failed (msg : String)
deriving DecidableEq, Repr

/-- The filename filter of parseDir: only files whose name matches the
pattern participate. -/
def matchingFiles (pattern : String → Bool) (files : List (String × ParseResult)) :
    List (String × ParseResult) :=
  files.filter (fun p => pattern p.1)

/-- The error a failed file contributes, carrying its path and the
underlying syntax error. -/
def fileError : String × ParseResult → Option String
  | (nm, ParseResult.failed msg) => some (nm ++ ": " ++ msg)
  | _ => none

/-- parseDir: parse every selected file; the first syntax error aborts
with that error, otherwise all parsed files are returned. -/
def parseDir (pattern : String → Bool) (files : List (String × ParseResult)) :
    Except String (List GoFile) :=
  let selected := matchingFiles pattern files
  match selected.findSome? fileError with
  | some e => Except.error e
  | none =>
      Except.ok (selected.filterMap (fun p =>
        match p.2 with
        | ParseResult.ok f => some f
        | ParseResult.failed _ => none))

/-- ParseSourceDir: a parse error is returned as is with no harvest;
otherwise every file is walked and the cross-linking pass rewrites the
struct list. -/
def ParseSourceDir (pattern : String → Bool) (files : List (String × ParseResult)) :
    Except String AstVisitor :=
  match parseDir pattern files with
  | Except.error e => Except.error e
  | Except.ok fs =>
      let v := harvestFiles fs
      Except.ok { v with structs := crossLink v.structs v.operations }

/-! ## Characterization of the field extractor -/

/-- The (TypeName, IsPointer, IsSlice) triple _extractField resolves a
type expression to (proof-side characterization used by the lemmas). -/
def typeInfo : Expr → String × Bool × Bool
  | Expr.array (Expr.ident nm) => (nm, false, true)
  | Expr.array (Expr.star (Expr.ident nm)) => (nm, true, true)
  | Expr.array _ => ("", false, true)
  | Expr.star (Expr.ident nm) => (nm, true, false)
  | Expr.ident nm => (nm, false, false)
  | _ => ("", false, false)

/-- _extractField in closed form: the name is left empty, the tag/doc/
comment data comes from the unit, and the type triple is typeInfo. -/
theorem extractField_eq (input : AstField) :
    _extractField input =
      { name := "", typeName := (typeInfo input.type).1,
        isPointer := (typeInfo input.type).2.1,
        isSlice := (typeInfo input.type).2.2,
        tag := input.tag.getD "",
        docLines := extractDocLines input.doc,
        commentLines := extractComments input.comment } := by
  rcases input with ⟨doc, names, ty, tag, comment⟩
  cases tag <;>
    cases ty <;>
      first
      | rfl
      | (rename_i e
         cases e <;>
           first
           | rfl
           | (rename_i x
              cases x <;> rfl))

/-- extractFields on a unit without names. -/
theorem extractFields_nil (input : AstField) (h : input.names = []) :
    extractFields input = [_extractField input] := by
  unfold extractFields
  rw [h]

/-- extractFields on a unit with at least one name. -/
theorem extractFields_cons (input : AstField) (n : String) (ns : List String)
    (h : input.names = n :: ns) :
    extractFields input = (n :: ns).map (fun nm => { _extractField input with name := nm }) := by
  unfold extractFields
  rw [h]

/-- Every field produced from one unit carries the shared type triple of
that unit's type expression. -/
theorem extractFields_shared_type (input : AstField) :
    ∀ f ∈ extractFields input,
      f.typeName = (typeInfo input.type).1 ∧
      f.isPointer = (typeInfo input.type).2.1 ∧
      f.isSlice = (typeInfo input.type).2.2 := by
  intro f hf
  have he := extractField_eq input
  cases h : input.names with
  | nil =>
      rw [extractFields_nil input h] at hf
      simp only [List.mem_singleton] at hf
      subst hf
      rw [he]
      exact ⟨rfl, rfl, rfl⟩
  | cons n ns =>
      rw [extractFields_cons input n ns h] at hf
      simp only [List.mem_map] at hf
      obtain ⟨nm, _, rfl⟩ := hf
      rw [he]
      exact ⟨rfl, rfl, rfl⟩

/-- extractFields never yields the empty list. -/
theorem extractFields_ne_nil (input : AstField) : extractFields input ≠ [] := by
  cases h : input.names with
  | nil => rw [extractFields_nil input h]; simp
  | cons n ns => rw [extractFields_cons input n ns h]; simp

/-- The type-expression shapes _extractField resolves to a non-trivial
triple: array forms, pointer-to-named-type, and plain named types. -/
def recognizedShape : Expr → Bool
  | Expr.array _ => true
  | Expr.star (Expr.ident _) => true
  | Expr.ident _ => true
  | _ => false

/-- A shape outside the recognized grammar resolves to the empty triple. -/
theorem typeInfo_unrecognized (e : Expr) (h : recognizedShape e = false) :
    typeInfo e = ("", false, false) := by
  cases e with
  | ident nm => simp [recognizedShape] at h
  | array elt => simp [recognizedShape] at h
  | star x => cases x <;> simp [recognizedShape] at h <;> rfl
  | funcT => rfl
  | mapT k v => rfl
  | chanT el => rfl
  | selector x s => rfl
  | otherExpr => rfl

/-- Doc lines of a struct extraction come from the declaration's doc
group. -/
theorem extractGenDeclForStruct_docLines (gd : GenDecl) :
    (extractGenDeclForStruct (Node.declNode (Decl.genDecl gd))).1.docLines =
      extractDocLines gd.doc := by
  rcases h : extractSpecsForStruct gd.specs with ⟨str, found⟩
  simp [extractGenDeclForStruct, h]

/-- Doc lines of an interface extraction come from the declaration's doc
group. -/
theorem extractGenDecForInterface_docLines (gd : GenDecl) :
    (extractGenDecForInterface (Node.declNode (Decl.genDecl gd))).1.docLines =
      extractDocLines gd.doc := by
  rcases h : extractSpecsForInterface gd.specs with ⟨iface, found⟩
  simp [extractGenDecForInterface, h]

/-- Doc lines of an operation extraction come from the function's doc
group: the later receiver/name/argument updates never touch them. -/
theorem extractOperation_docLines (fd : FuncDecl) :
    (extractOperation (Node.declNode (Decl.funcDecl fd))).1.docLines =
      extractDocLines fd.doc := by
  rcases fd with ⟨doc, recv, name, params, results⟩
  cases recv <;> cases name <;> cases params <;> cases results <;>
    simp only [extractOperation] <;>
      first
      | rfl
      | (rename_i l _ _ _
         cases extractFieldList (some l) <;> rfl)
      | (rename_i l _ _
         cases extractFieldList (some l) <;> rfl)
      | (rename_i l _
         cases extractFieldList (some l) <;> rfl)
      | (rename_i l
         cases extractFieldList (some l) <;> rfl)

/-- C3: for a field-like unit whose type expression is a slice of
pointers-to-T every produced Field has IsSlice = true, IsPointer = true
and TypeName = T, and for a slice of a plain named type X every produced
Field has IsSlice = true, IsPointer = false and TypeName = X. -/
theorem slice_type_resolution (input : AstField) (t : String) :
    (input.type = Expr.array (Expr.star (Expr.ident t)) →
      ∀ f ∈ extractFields input,
        f.isSlice = true ∧ f.isPointer = true ∧ f.typeName = t)
  ∧ (input.type = Expr.array (Expr.ident t) →
      ∀ f ∈ extractFields input,
        f.isSlice = true ∧ f.isPointer = false ∧ f.typeName = t) := by
  constructor <;>
    (intro h f hf
     obtain ⟨h1, h2, h3⟩ := extractFields_shared_type input f hf
     rw [h] at h1 h2 h3
     simp only [typeInfo] at h1 h2 h3
     exact ⟨h3, h2, h1⟩)

/-- A concrete slice-of-pointer unit used to exercise the resolution
claims. -/
def slicePtrUnit : AstField :=
  { names := ["xs"], type := Expr.array (Expr.star (Expr.ident "T")) }

/-- C3 witness: the slice-of-pointers claim at a concrete unit. -/
theorem slice_type_resolution_witness :
    ({ _extractField slicePtrUnit with name := "xs" } : Field).isSlice = true ∧
    ({ _extractField slicePtrUnit with name := "xs" } : Field).isPointer = true ∧
    ({ _extractField slicePtrUnit with name := "xs" } : Field).typeName = "T" :=
  (slice_type_resolution slicePtrUnit "T").1 rfl
    { _extractField slicePtrUnit with name := "xs" } (by decide)

/-- C4: a unit with n >= 1 names yields exactly one Field per name, in
declaration order, every one a copy of the shared extraction with only
Name changed (so TypeName, IsPointer and IsSlice agree across them); a
unit with no names yields exactly one Field whose Name is empty. -/
theorem field_multiplicity (input : AstField) :
    (input.names = [] →
       extractFields input = [_extractField input] ∧ (_extractField input).name = "")
  ∧ (∀ n ns, input.names = n :: ns →
       extractFields input =
         (n :: ns).map (fun nm => { _extractField input with name := nm }) ∧
       (extractFields input).length = (n :: ns).length) := by
  refine ⟨fun h => ⟨extractFields_nil input h, ?_⟩, fun n ns h => ⟨extractFields_cons input n ns h, ?_⟩⟩
  · rw [extractField_eq]
  · rw [extractFields_cons input n ns h, List.length_map]

/-- A concrete two-name unit sharing one type expression. -/
def twoNameUnit : AstField := { names := ["x", "y"], type := Expr.ident "T" }

/-- C4 witness: the two-name unit yields exactly the two expected fields
in order. -/
theorem field_multiplicity_witness :
    extractFields twoNameUnit =
      [{ _extractField twoNameUnit with name := "x" },
       { _extractField twoNameUnit with name := "y" }] ∧
    (extractFields twoNameUnit).length = 2 :=
  (field_multiplicity twoNameUnit).2 "x" ["y"] rfl

/-- C6: a unit whose type expression is neither an array/slice form nor a
pointer-to-named-type nor a plain named type (function, map, channel,
selector, or any other shape) still yields at least one Field, and every
produced Field has an empty TypeName with both flags false. -/
theorem unrecognized_shape_fallback (input : AstField)
    (h : recognizedShape input.type = false) :
    extractFields input ≠ [] ∧
    ∀ f ∈ extractFields input,
      f.typeName = "" ∧ f.isPointer = false ∧ f.isSlice = false := by
  refine ⟨extractFields_ne_nil input, fun f hf => ?_⟩
  obtain ⟨h1, h2, h3⟩ := extractFields_shared_type input f hf
  rw [typeInfo_unrecognized input.type h] at h1 h2 h3
  exact ⟨h1, h2, h3⟩

/-- A concrete map-typed unit, a shape outside the recognized grammar. -/
def mapUnit : AstField :=
  { names := ["m"], type := Expr.mapT (Expr.ident "k") (Expr.ident "v") }

/-- C6 witness: the fallback claim at a concrete map-typed unit. -/
theorem unrecognized_shape_fallback_witness :
    extractFields mapUnit ≠ [] ∧
    ∀ f ∈ extractFields mapUnit,
      f.typeName = "" ∧ f.isPointer = false ∧ f.isSlice = false :=
  unrecognized_shape_fallback mapUnit rfl

/-- C7: every comment line of a declaration's leading comment block is
preserved verbatim and in order in the extracted entity's DocLines --
extractDocLines is the identity on a present group and empty on a
missing one, and each of the struct, interface, operation and field
extractors stores exactly extractDocLines of its node's doc group. -/
theorem doc_line_fidelity (ls : List String) (gd : GenDecl) (fd : FuncDecl)
    (input : AstField) :
    extractDocLines (some ls) = ls
  ∧ extractDocLines none = []
  ∧ (extractGenDeclForStruct (Node.declNode (Decl.genDecl gd))).1.docLines =
      extractDocLines gd.doc
  ∧ (extractGenDecForInterface (Node.declNode (Decl.genDecl gd))).1.docLines =
      extractDocLines gd.doc
  ∧ (extractOperation (Node.declNode (Decl.funcDecl fd))).1.docLines =
      extractDocLines fd.doc
  ∧ (_extractField input).docLines = extractDocLines input.doc :=
  ⟨rfl, rfl, extractGenDeclForStruct_docLines gd, extractGenDecForInterface_docLines gd,
   extractOperation_docLines fd, by rw [extractField_eq]⟩

/-- A RestService annotation whose path attribute is present but empty. -/
def emptyPathServiceAnnot : Annot :=
  { name := "RestService", attributes := [("path", "")] }

/-- C5 counterexample: the RestService validator accepts an annotation
whose required path attribute is present but empty -- it reads only the
comma-ok presence bit, so the claimed rejection of empty required
attributes does not happen. -/
theorem restService_accepts_empty_path :
    validateRestServiceAnnot emptyPathServiceAnnot = true := by decide

/-- C5 amended: each validator returns a plain Boolean; the
RestOperation validator accepts exactly when the name matches its
sentinel and both required attributes (path, method) are present and
non-empty, while the RestService validator accepts exactly when the name
matches its sentinel and the path attribute is present -- presence only,
an empty value is accepted. -/
theorem validator_characterization (a : Annot) :
    (validateRestOperationAnnot a = true ↔
        a.name = typeRestOperation ∧
        (∃ p, a.attributes.lookup paramPath = some p ∧ p ≠ "") ∧
        (∃ m, a.attributes.lookup paramMethod = some m ∧ m ≠ ""))
  ∧ (validateRestServiceAnnot a = true ↔
        a.name = typeRestService ∧ (a.attributes.lookup paramPath).isSome = true) := by
  constructor
  · unfold validateRestOperationAnnot
    split
    · rename_i hname
      cases hp : a.attributes.lookup paramPath <;>
        cases hm : a.attributes.lookup paramMethod <;>
          simp [hname, hp, hm, bne_iff_ne]
    · rename_i hname
      simp [hname]
  · unfold validateRestServiceAnnot
    split
    · rename_i hname
      simp [hname]
    · rename_i hname
      simp [hname]

/-! ## Characterization of the walker -/

/-- visitPackageStep in if-form. -/
theorem visitPackageStep_eq (v : AstVisitor) (node : Node) :
    visitPackageStep v node =
      if (extractPackageName node).2 then
        { v with packageName := (extractPackageName node).1 }
      else v := by
  rcases h : extractPackageName node with ⟨p, found⟩
  cases found <;> simp [visitPackageStep, h]

/-- visitStructStep in if-form. -/
theorem visitStructStep_eq (v : AstVisitor) (node : Node) :
    visitStructStep v node =
      if (extractGenDeclForStruct node).2 then
        { v with structs := v.structs ++
            [{ (extractGenDeclForStruct node).1 with packageName := v.packageName }] }
      else v := by
  rcases h : extractGenDeclForStruct node with ⟨str, found⟩
  cases found <;> simp [visitStructStep, h]

/-- visitInterfaceStep in if-form. -/
theorem visitInterfaceStep_eq (v : AstVisitor) (node : Node) :
    visitInterfaceStep v node =
      if (extractGenDecForInterface node).2 then
        { v with interfaces := v.interfaces ++
            [{ (extractGenDecForInterface node).1 with packageName := v.packageName }] }
      else v := by
  rcases h : extractGenDecForInterface node with ⟨iface, found⟩
  cases found <;> simp [visitInterfaceStep, h]

/-- visitOperationStep in if-form. -/
theorem visitOperationStep_eq (v : AstVisitor) (node : Node) :
    visitOperationStep v node =
      if (extractOperation node).2 then
        { v with operations := v.operations ++
            [{ (extractOperation node).1 with packageName := v.packageName }] }
      else v := by
  rcases h : extractOperation node with ⟨oper, found⟩
  cases found <;> simp [visitOperationStep, h]

/-- Visiting the file node only replaces the current package name with
the one recovered from the package clause. -/
theorem visit_fileNode (v : AstVisitor) (nm : Option String) :
    v.visit (Node.fileNode nm) = { v with packageName := nm.getD "" } := rfl

/-- A spec list's first spec cannot declare both a struct and an
interface: at most one of the two extractors reports found. -/
theorem struct_interface_exclusive (specs : List Spec) :
    (extractSpecsForStruct specs).2 = false ∨
    (extractSpecsForInterface specs).2 = false := by
  match specs with
  | [] => exact Or.inl rfl
  | Spec.otherSpec :: _ => exact Or.inl rfl
  | Spec.typeSpec ts :: rest =>
      cases h : ts.type with
      | structType fl => exact Or.inr (by simp [extractSpecsForInterface, h])
      | interfaceType ms => exact Or.inl (by simp [extractSpecsForStruct, h])
      | otherType => exact Or.inl (by simp [extractSpecsForStruct, h])

/-- Visiting a declaration that is neither a GenDecl nor a FuncDecl
changes nothing. -/
theorem visit_otherDecl (v : AstVisitor) :
    v.visit (Node.declNode Decl.otherDecl) = v := rfl

/-- Visiting a FuncDecl node appends exactly the extracted operation,
tagged with the current package name. -/
theorem visit_funcDecl (v : AstVisitor) (fd : FuncDecl) :
    v.visit (Node.declNode (Decl.funcDecl fd)) =
      { v with operations := v.operations ++
          [{ (extractOperation (Node.declNode (Decl.funcDecl fd))).1 with
              packageName := v.packageName }] } := rfl

/-- Visiting a GenDecl node appends the extracted struct when the struct
extractor reports found, then the extracted interface when the interface
extractor reports found, both tagged with the current package name. -/
theorem visit_genDecl (v : AstVisitor) (gd : GenDecl) :
    v.visit (Node.declNode (Decl.genDecl gd)) =
      (if (extractGenDecForInterface (Node.declNode (Decl.genDecl gd))).2 then
        { (if (extractGenDeclForStruct (Node.declNode (Decl.genDecl gd))).2 then
            { v with structs := v.structs ++
                [{ (extractGenDeclForStruct (Node.declNode (Decl.genDecl gd))).1 with
                    packageName := v.packageName }] }
          else v) with
          interfaces := v.interfaces ++
            [{ (extractGenDecForInterface (Node.declNode (Decl.genDecl gd))).1 with
                packageName := v.packageName }] }
      else
        (if (extractGenDeclForStruct (Node.declNode (Decl.genDecl gd))).2 then
          { v with structs := v.structs ++
              [{ (extractGenDeclForStruct (Node.declNode (Decl.genDecl gd))).1 with
                  packageName := v.packageName }] }
        else v)) := by
  have h1 : v.visit (Node.declNode (Decl.genDecl gd)) =
      visitOperationStep
        (visitInterfaceStep (visitStructStep v (Node.declNode (Decl.genDecl gd)))
          (Node.declNode (Decl.genDecl gd)))
        (Node.declNode (Decl.genDecl gd)) := rfl
  have hoe : extractOperation (Node.declNode (Decl.genDecl gd)) = ({}, false) := rfl
  rw [h1, visitStructStep_eq, visitInterfaceStep_eq, visitOperationStep_eq, hoe]
  by_cases hs : (extractGenDeclForStruct (Node.declNode (Decl.genDecl gd))).2 = true <;>
    by_cases hi : (extractGenDecForInterface (Node.declNode (Decl.genDecl gd))).2 = true <;>
      simp [hs, hi]

/-- Visiting one declaration node preserves the current package name,
appends at most one freshly extracted entity to the entity lists, and
tags every appended entity with the current package name. -/
theorem visit_decl_shape (v : AstVisitor) (d : Decl) :
    ∃ ls li lo,
      (v.visit (Node.declNode d)).packageName = v.packageName ∧
      (v.visit (Node.declNode d)).structs = v.structs ++ ls ∧
      (v.visit (Node.declNode d)).interfaces = v.interfaces ++ li ∧
      (v.visit (Node.declNode d)).operations = v.operations ++ lo ∧
      (∀ s ∈ ls, s.packageName = v.packageName) ∧
      (∀ i ∈ li, i.packageName = v.packageName) ∧
      (∀ o ∈ lo, o.packageName = v.packageName) ∧
      ls.length + li.length + lo.length ≤ 1 := by
  cases d with
  | otherDecl =>
      refine ⟨[], [], [], ?_, ?_, ?_, ?_, by simp, by simp, by simp, by simp⟩ <;>
        rw [visit_otherDecl] <;> simp
  | funcDecl fd =>
      refine ⟨[], [],
        [{ (extractOperation (Node.declNode (Decl.funcDecl fd))).1 with
            packageName := v.packageName }], ?_, ?_, ?_, ?_, by simp, by simp, ?_, by simp⟩
      · rw [visit_funcDecl]
      · rw [visit_funcDecl]; simp
      · rw [visit_funcDecl]; simp
      · rw [visit_funcDecl]
      · intro o ho
        simp only [List.mem_singleton] at ho
        subst ho
        rfl
  | genDecl gd =>
      rw [visit_genDecl]
      have hx := struct_interface_exclusive gd.specs
      have hs2 : (extractGenDeclForStruct (Node.declNode (Decl.genDecl gd))).2 =
          (extractSpecsForStruct gd.specs).2 := by
        rcases h : extractSpecsForStruct gd.specs with ⟨str, sfound⟩
        simp [extractGenDeclForStruct, h]
      have hi2 : (extractGenDecForInterface (Node.declNode (Decl.genDecl gd))).2 =
          (extractSpecsForInterface gd.specs).2 := by
        rcases h : extractSpecsForInterface gd.specs with ⟨ifc, ifound⟩
        simp [extractGenDecForInterface, h]
      by_cases hs : (extractGenDeclForStruct (Node.declNode (Decl.genDecl gd))).2 = true <;>
        by_cases hi : (extractGenDecForInterface (Node.declNode (Decl.genDecl gd))).2 = true
      · exfalso
        rw [hs2] at hs
        rw [hi2] at hi
        rcases hx with h | h <;> simp [h] at hs hi
      · refine ⟨[{ (extractGenDeclForStruct (Node.declNode (Decl.genDecl gd))).1 with
            packageName := v.packageName }], [], [], ?_, ?_, ?_, ?_, ?_, by simp, by simp, by simp⟩ <;>
          simp [hs, hi]
      · refine ⟨[], [{ (extractGenDecForInterface (Node.declNode (Decl.genDecl gd))).1 with
            packageName := v.packageName }], [], ?_, ?_, ?_, ?_, by simp, ?_, by simp, by simp⟩ <;>
          simp [hs, hi]
      · refine ⟨[], [], [], ?_, ?_, ?_, ?_, by simp, by simp, by simp, by simp⟩ <;>
          simp [hs, hi]

/-- Folding the visitor over a declaration list: the package name is
preserved, and every appended entity carries the package name current at
the start of the fold. -/
theorem walkDecls_shape (decls : List Decl) (acc : AstVisitor) :
    ∃ ls li lo,
      (decls.foldl (fun a d => a.visit (Node.declNode d)) acc).packageName = acc.packageName ∧
      (decls.foldl (fun a d => a.visit (Node.declNode d)) acc).structs = acc.structs ++ ls ∧
      (decls.foldl (fun a d => a.visit (Node.declNode d)) acc).interfaces = acc.interfaces ++ li ∧
      (decls.foldl (fun a d => a.visit (Node.declNode d)) acc).operations = acc.operations ++ lo ∧
      (∀ s ∈ ls, s.packageName = acc.packageName) ∧
      (∀ i ∈ li, i.packageName = acc.packageName) ∧
      (∀ o ∈ lo, o.packageName = acc.packageName) := by
  induction decls generalizing acc with
  | nil => exact ⟨[], [], [], rfl, by simp, by simp, by simp, by simp, by simp, by simp⟩
  | cons d ds ih =>
      obtain ⟨ls1, li1, lo1, hp1, hs1, hi1, ho1, hts1, hti1, hto1, _⟩ := visit_decl_shape acc d
      obtain ⟨ls2, li2, lo2, hp2, hs2, hi2, ho2, hts2, hti2, hto2⟩ :=
        ih (acc.visit (Node.declNode d))
      refine ⟨ls1 ++ ls2, li1 ++ li2, lo1 ++ lo2, ?_, ?_, ?_, ?_, ?_, ?_, ?_⟩
      · rw [List.foldl_cons, hp2, hp1]
      · rw [List.foldl_cons, hs2, hs1, List.append_assoc]
      · rw [List.foldl_cons, hi2, hi1, List.append_assoc]
      · rw [List.foldl_cons, ho2, ho1, List.append_assoc]
      · intro s hs
        rcases List.mem_append.mp hs with h | h
        · exact hts1 s h
        · rw [← hp1]; exact hts2 s h
      · intro i hi
        rcases List.mem_append.mp hi with h | h
        · exact hti1 i h
        · rw [← hp1]; exact hti2 i h
      · intro o ho
        rcases List.mem_append.mp ho with h | h
        · exact hto1 o h
        · rw [← hp1]; exact hto2 o h

/-- C9: every Struct, Interface and Operation the Source Walker
accumulates from one file is tagged with the package name recovered from
that file's package clause: the walk visits the file node first, which
sets the current package name, and every entity appended while walking
the file's declarations carries it. -/
theorem package_name_propagation (v : AstVisitor) (f : GoFile) :
    ∃ ls li lo,
      (walkFile v f).structs = v.structs ++ ls ∧
      (walkFile v f).interfaces = v.interfaces ++ li ∧
      (walkFile v f).operations = v.operations ++ lo ∧
      (∀ s ∈ ls, s.packageName = (extractPackageName (Node.fileNode f.name)).1) ∧
      (∀ i ∈ li, i.packageName = (extractPackageName (Node.fileNode f.name)).1) ∧
      (∀ o ∈ lo, o.packageName = (extractPackageName (Node.fileNode f.name)).1) := by
  obtain ⟨ls, li, lo, hp, hs, hi, ho, hts, hti, hto⟩ :=
    walkDecls_shape f.decls (v.visit (Node.fileNode f.name))
  refine ⟨ls, li, lo, ?_, ?_, ?_, ?_, ?_, ?_⟩
  · rw [walkFile, hs, visit_fileNode]
  · rw [walkFile, hi, visit_fileNode]
  · rw [walkFile, ho, visit_fileNode]
  · intro s h
    rw [hts s h, visit_fileNode]
    rfl
  · intro i h
    rw [hti i h, visit_fileNode]
    rfl
  · intro o h
    rw [hto o h, visit_fileNode]
    rfl

/-- The number of entities a visitor has accumulated. -/
def entityCount (v : AstVisitor) : Nat :=
  v.structs.length + v.interfaces.length + v.operations.length

/-- C10: in a grouped type declaration only the first spec is ever
examined -- both spec extractors give the same answer on s :: rest as on
[s] alone, a struct (resp. interface) is found exactly when that first
spec itself declares one, and a single visited node grows the harvest by
at most one entity. -/
theorem first_spec_only (s : Spec) (rest : List Spec) (v : AstVisitor) (n : Node) :
    extractSpecsForStruct (s :: rest) = extractSpecsForStruct [s]
  ∧ extractSpecsForInterface (s :: rest) = extractSpecsForInterface [s]
  ∧ ((extractSpecsForStruct (s :: rest)).2 = true ↔
       ∃ nm fl, s = Spec.typeSpec ⟨nm, TypeSpecType.structType fl⟩)
  ∧ ((extractSpecsForInterface (s :: rest)).2 = true ↔
       ∃ nm ms, s = Spec.typeSpec ⟨nm, TypeSpecType.interfaceType ms⟩)
  ∧ entityCount (v.visit n) ≤ entityCount v + 1 := by
  refine ⟨?_, ?_, ?_, ?_, ?_⟩
  · rcases s with ts | _
    · rcases ts with ⟨nm, ty⟩
      cases ty <;> rfl
    · rfl
  · rcases s with ts | _
    · rcases ts with ⟨nm, ty⟩
      cases ty <;> rfl
    · rfl
  · rcases s with ts | _
    · rcases ts with ⟨nm, ty⟩
      cases ty <;> simp [extractSpecsForStruct]
    · simp [extractSpecsForStruct]
  · rcases s with ts | _
    · rcases ts with ⟨nm, ty⟩
      cases ty <;> simp [extractSpecsForInterface]
    · simp [extractSpecsForInterface]
  · cases n with
    | fileNode nm =>
        rw [visit_fileNode]
        exact Nat.le_succ _
    | declNode d =>
        obtain ⟨ls, li, lo, _, hs, hi, ho, _, _, _, hlen⟩ := visit_decl_shape v d
        unfold entityCount
        rw [hs, hi, ho]
        simp only [List.length_append]
        omega

/-! ## Characterization of the cross-linking pass -/

/-- What the cross-linking pass may do to one struct: every field is
unchanged except Operations, which is only ever extended at the end. -/
def frameRel (s s2 : Struct) : Prop :=
  s2.name = s.name ∧ s2.packageName = s.packageName ∧ s2.docLines = s.docLines ∧
  s2.fields = s.fields ∧ ∃ l, s2.operations = s.operations ++ l

theorem frameRel_refl (s : Struct) : frameRel s s :=
  ⟨rfl, rfl, rfl, rfl, [], (List.append_nil _).symm⟩

theorem frameRel_trans {a b c : Struct} (h1 : frameRel a b) (h2 : frameRel b c) :
    frameRel a c := by
  obtain ⟨n1, p1, d1, f1, l1, o1⟩ := h1
  obtain ⟨n2, p2, d2, f2, l2, o2⟩ := h2
  exact ⟨n2.trans n1, p2.trans p1, d2.trans d1, f2.trans f1, l1 ++ l2,
    by rw [o2, o1, List.append_assoc]⟩

theorem forall₂_frameRel_refl (l : List Struct) : List.Forall₂ frameRel l l := by
  induction l with
  | nil => exact List.Forall₂.nil
  | cons s rest ih => exact List.Forall₂.cons (frameRel_refl s) ih

theorem forall₂_frameRel_trans {a b c : List Struct}
    (h1 : List.Forall₂ frameRel a b) (h2 : List.Forall₂ frameRel b c) :
    List.Forall₂ frameRel a c := by
  induction h1 generalizing c with
  | nil => cases h2; exact List.Forall₂.nil
  | cons hr hrest ih =>
      cases h2 with
      | cons hr2 hrest2 => exact List.Forall₂.cons (frameRel_trans hr hr2) (ih hrest2)

theorem appendOpToLast_frame (structs : List Struct) (tn : String) (op : Operation) :
    List.Forall₂ frameRel structs (appendOpToLast structs tn op) := by
  induction structs with
  | nil => exact List.Forall₂.nil
  | cons s rest ih =>
      unfold appendOpToLast
      split
      · exact List.Forall₂.cons (frameRel_refl s) ih
      · split
        · exact List.Forall₂.cons ⟨rfl, rfl, rfl, rfl, [op], rfl⟩ (forall₂_frameRel_refl rest)
        · exact List.Forall₂.cons (frameRel_refl s) (forall₂_frameRel_refl rest)

theorem crossLinkOne_frame (structs : List Struct) (op : Operation) :
    List.Forall₂ frameRel structs (crossLinkOne structs op) := by
  unfold crossLinkOne
  cases op.relatedStruct with
  | none => exact forall₂_frameRel_refl structs
  | some rs =>
      by_cases hany : structs.any (fun s => s.name == rs.typeName) = true
      · simp only [hany, if_true]
        exact appendOpToLast_frame structs rs.typeName op
      · simp only [hany, if_false, Bool.false_eq_true, ite_false]
        exact forall₂_frameRel_refl structs

theorem crossLink_frame (structs : List Struct) (ops : List Operation) :
    List.Forall₂ frameRel structs (crossLink structs ops) := by
  induction ops generalizing structs with
  | nil => exact forall₂_frameRel_refl structs
  | cons op rest ih =>
      exact forall₂_frameRel_trans (crossLinkOne_frame structs op)
        (ih (crossLinkOne structs op))

theorem forall₂_frameRel_names {a b : List Struct} (h : List.Forall₂ frameRel a b) :
    b.map (fun s => s.name) = a.map (fun s => s.name) := by
  induction h with
  | nil => rfl
  | cons hr hrest ih => simp only [List.map_cons, ih, hr.1]

theorem forall₂_mem_left {R : Struct → Struct → Prop} {a b : List Struct}
    (h : List.Forall₂ R a b) {x : Struct} (hx : x ∈ a) : ∃ y ∈ b, R x y := by
  induction h with
  | nil => simp at hx
  | cons hr hrest ih =>
      rcases List.mem_cons.mp hx with rfl | hx2
      · exact ⟨_, List.mem_cons_self _ _, hr⟩
      · obtain ⟨y, hy, hxy⟩ := ih hx2
        exact ⟨y, List.mem_cons_of_mem _ hy, hxy⟩

/-- Name-matching survives the pass in both directions: the pass never
changes any struct's name. -/
theorem exists_name_iff {a b : List Struct} (h : List.Forall₂ frameRel a b)
    (nm : String) :
    (∃ s ∈ a, s.name = nm) ↔ (∃ s ∈ b, s.name = nm) := by
  have hn := forall₂_frameRel_names h
  constructor
  · rintro ⟨s, hs, hname⟩
    have hmem : nm ∈ b.map (fun s => s.name) := by
      rw [hn]
      exact List.mem_map.mpr ⟨s, hs, hname⟩
    obtain ⟨s2, hs2, he⟩ := List.mem_map.mp hmem
    exact ⟨s2, hs2, he⟩
  · rintro ⟨s, hs, hname⟩
    have hmem : nm ∈ a.map (fun s => s.name) := by
      rw [← hn]
      exact List.mem_map.mpr ⟨s, hs, hname⟩
    obtain ⟨s2, hs2, he⟩ := List.mem_map.mp hmem
    exact ⟨s2, hs2, he⟩

/-- An already-linked entry survives the rest of the pass. -/
theorem frame_persist {a b : List Struct} (h : List.Forall₂ frameRel a b)
    (nm : String) (P : Operation → Prop)
    (hx : ∃ s ∈ a, s.name = nm ∧ ∃ o ∈ s.operations, P o) :
    ∃ s ∈ b, s.name = nm ∧ ∃ o ∈ s.operations, P o := by
  obtain ⟨s, hs, hname, o, ho, hP⟩ := hx
  obtain ⟨s2, hs2, hr⟩ := forall₂_mem_left h hs
  obtain ⟨hn, -, -, -, l, hops⟩ := hr
  exact ⟨s2, hs2, hn.trans hname, o, by rw [hops]; exact List.mem_append_left _ ho, hP⟩

/-- When some struct carries the name, appendOpToLast links the operation
into a struct carrying that name. -/
theorem appendOpToLast_hit (structs : List Struct) (tn : String) (op : Operation)
    (h : ∃ s ∈ structs, s.name = tn) :
    ∃ s ∈ appendOpToLast structs tn op, s.name = tn ∧ op ∈ s.operations := by
  induction structs with
  | nil => simp at h
  | cons s rest ih =>
      unfold appendOpToLast
      by_cases hrest : rest.any (fun s2 => s2.name == tn) = true
      · rw [if_pos hrest]
        have hex : ∃ s2 ∈ rest, s2.name = tn := by
          simpa using List.any_eq_true.mp hrest
        obtain ⟨s2, hs2, hname, hop⟩ := ih hex
        exact ⟨s2, List.mem_cons_of_mem _ hs2, hname, hop⟩
      · rw [if_neg hrest]
        have hh : s.name = tn := by
          rcases h with ⟨s3, hs3, hname3⟩
          rcases List.mem_cons.mp hs3 with rfl | hmem
          · exact hname3
          · exact absurd (List.any_eq_true.mpr ⟨s3, hmem, by simp [hname3]⟩) hrest
        rw [if_pos (by simp [hh])]
        exact ⟨_, List.mem_cons_self _ _, hh, by simp⟩

/-- When some struct carries the receiver's type name, one iteration of
the cross-linking loop links the operation into a struct carrying it. -/
theorem crossLinkOne_hit (structs : List Struct) (op : Operation) (rs : Field)
    (h1 : op.relatedStruct = some rs) (h : ∃ s ∈ structs, s.name = rs.typeName) :
    ∃ s ∈ crossLinkOne structs op, s.name = rs.typeName ∧ op ∈ s.operations := by
  have hany : structs.any (fun s => s.name == rs.typeName) = true := by
    obtain ⟨s, hs, hname⟩ := h
    exact List.any_eq_true.mpr ⟨s, hs, by simp [hname]⟩
  simp only [crossLinkOne, h1, hany, if_true]
  exact appendOpToLast_hit structs rs.typeName op h

/-- When no struct carries the receiver's type name, one iteration of the
cross-linking loop is the identity: the operation is silently skipped. -/
theorem crossLinkOne_skip (structs : List Struct) (op : Operation) (rs : Field)
    (h1 : op.relatedStruct = some rs) (h : ∀ s ∈ structs, s.name ≠ rs.typeName) :
    crossLinkOne structs op = structs := by
  have hany : structs.any (fun s => s.name == rs.typeName) = false := by
    rw [List.any_eq_false]
    intro s hs
    simp [h s hs]
  simp only [crossLinkOne, h1, hany]
  simp

theorem crossLink_append (structs : List Struct) (l1 l2 : List Operation) :
    crossLink structs (l1 ++ l2) = crossLink (crossLink structs l1) l2 := by
  simp [crossLink, List.foldl_append]

/-- The harvest an ok ParseSourceDir returns: the walked files' visitor
with the struct list rewritten by the cross-linking pass. -/
theorem ParseSourceDir_ok (pattern : String → Bool) (files : List (String × ParseResult))
    (v : AstVisitor) (hv : ParseSourceDir pattern files = Except.ok v) :
    ∃ fs, parseDir pattern files = Except.ok fs ∧
      v = { harvestFiles fs with
              structs := crossLink (harvestFiles fs).structs
                (harvestFiles fs).operations } := by
  unfold ParseSourceDir at hv
  cases h : parseDir pattern files with
  | error e =>
      rw [h] at hv
      cases hv
  | ok fs =>
      rw [h] at hv
      simp only at hv
      injection hv with h2
      exact ⟨fs, rfl, h2.symm⟩

theorem crossLink_cons (structs : List Struct) (op : Operation) (rest : List Operation) :
    crossLink structs (op :: rest) = crossLink (crossLinkOne structs op) rest := rfl

/-- C1: after ParseSourceDir returns, every harvested operation with a
receiver whose type name some harvested struct carries has been linked:
a struct with that name holds an entry with the operation's name (when
several structs share the name, the lookup map keeps the last, so the
existential form is the faithful one); an operation whose receiver type
name no struct carries is silently skipped -- its cross-linking
iteration leaves the struct list exactly unchanged. -/
theorem crossLinking_after_aggregation (pattern : String → Bool)
    (files : List (String × ParseResult)) (v : AstVisitor)
    (hv : ParseSourceDir pattern files = Except.ok v) :
    (∀ op ∈ v.operations, ∀ rs, op.relatedStruct = some rs →
        (∃ s ∈ v.structs, s.name = rs.typeName) →
        ∃ s ∈ v.structs, s.name = rs.typeName ∧ ∃ o ∈ s.operations, o.name = op.name)
  ∧ (∀ op, ∀ rs, op.relatedStruct = some rs →
        (∀ s ∈ v.structs, s.name ≠ rs.typeName) →
        crossLinkOne v.structs op = v.structs) := by
  obtain ⟨fs, hfs, hveq⟩ := ParseSourceDir_ok pattern files v hv
  subst hveq
  constructor
  · intro op hop rs h1 h2
    have hop2 : op ∈ (harvestFiles fs).operations := hop
    have h2b : ∃ s ∈ crossLink (harvestFiles fs).structs (harvestFiles fs).operations,
        s.name = rs.typeName := h2
    show ∃ s ∈ crossLink (harvestFiles fs).structs (harvestFiles fs).operations,
        s.name = rs.typeName ∧ ∃ o ∈ s.operations, o.name = op.name
    obtain ⟨l1, l2, hsplit⟩ := List.append_of_mem hop2
    have hframe_full : List.Forall₂ frameRel (harvestFiles fs).structs
        (crossLink (harvestFiles fs).structs (harvestFiles fs).operations) :=
      crossLink_frame _ _
    have h2c : ∃ s ∈ (harvestFiles fs).structs, s.name = rs.typeName :=
      (exists_name_iff hframe_full _).mpr h2b
    have hframe1 : List.Forall₂ frameRel (harvestFiles fs).structs
        (crossLink (harvestFiles fs).structs l1) := crossLink_frame _ _
    have h2A : ∃ s ∈ crossLink (harvestFiles fs).structs l1, s.name = rs.typeName :=
      (exists_name_iff hframe1 _).mp h2c
    have hhit := crossLinkOne_hit (crossLink (harvestFiles fs).structs l1) op rs h1 h2A
    have hinit : ∃ s ∈ crossLinkOne (crossLink (harvestFiles fs).structs l1) op,
        s.name = rs.typeName ∧ ∃ o ∈ s.operations, o.name = op.name := by
      obtain ⟨s, hs, hname, hmem⟩ := hhit
      exact ⟨s, hs, hname, op, hmem, rfl⟩
    have hframe2 : List.Forall₂ frameRel
        (crossLinkOne (crossLink (harvestFiles fs).structs l1) op)
        (crossLink (crossLinkOne (crossLink (harvestFiles fs).structs l1) op) l2) :=
      crossLink_frame _ _
    have hfinal := frame_persist hframe2 rs.typeName (fun o => o.name = op.name) hinit
    rw [hsplit, crossLink_append, crossLink_cons]
    exact hfinal
  · intro op rs h1 h2
    exact crossLinkOne_skip _ op rs h1 h2

/-- C8: the cross-linking pass only appends to the Operations lists of
matched structs: the harvest's operation list (hence every operation's
RelatedStruct, Name, and argument lists) and interface list are exactly
the walker's, and every struct keeps its Name, PackageName, DocLines and
Fields, its Operations list only ever being extended. -/
theorem crossLink_frame_property (pattern : String → Bool)
    (files : List (String × ParseResult)) (v : AstVisitor)
    (hv : ParseSourceDir pattern files = Except.ok v) :
    ∃ fs, parseDir pattern files = Except.ok fs ∧
      v.packageName = (harvestFiles fs).packageName ∧
      v.operations = (harvestFiles fs).operations ∧
      v.interfaces = (harvestFiles fs).interfaces ∧
      List.Forall₂ frameRel (harvestFiles fs).structs v.structs := by
  obtain ⟨fs, hfs, hveq⟩ := ParseSourceDir_ok pattern files v hv
  subst hveq
  exact ⟨fs, hfs, rfl, rfl, rfl, crossLink_frame _ _⟩

/-- C2: a selected file that fails to parse makes ParseSourceDir return
the error carrying that file's path and underlying syntax error, and no
harvest at all is produced. -/
theorem parse_failure_all_or_nothing (pattern : String → Bool)
    (files : List (String × ParseResult))
    (h : ∃ p ∈ files, pattern p.1 = true ∧ ∃ m, p.2 = ParseResult.failed m) :
    (∃ nm m, (nm, ParseResult.failed m) ∈ files ∧ pattern nm = true ∧
        ParseSourceDir pattern files = Except.error (nm ++ ": " ++ m))
  ∧ ∀ v, ParseSourceDir pattern files ≠ Except.ok v := by
  obtain ⟨⟨nm0, pr⟩, hp, hpat, m, hm⟩ := h
  simp only at hpat hm
  subst hm
  have hmem : (nm0, ParseResult.failed m) ∈ matchingFiles pattern files :=
    List.mem_filter.mpr ⟨hp, hpat⟩
  have hner : (matchingFiles pattern files).findSome? fileError ≠ none := by
    rw [Ne, List.findSome?_eq_none_iff]
    intro hall
    exact absurd (hall _ hmem) (by simp [fileError])
  cases hfe : (matchingFiles pattern files).findSome? fileError with
  | none => exact absurd hfe hner
  | some e =>
      obtain ⟨⟨nm1, pr1⟩, hmem1, hfe1⟩ := List.exists_of_findSome?_eq_some hfe
      have hpsd : ParseSourceDir pattern files = Except.error e := by
        simp [ParseSourceDir, parseDir, hfe]
      obtain ⟨hfiles1, hpat1⟩ := List.mem_filter.mp hmem1
      cases pr1 with
      | ok f => exact absurd hfe1 (by simp [fileError])
      | failed m1 =>
          have he : e = nm1 ++ ": " ++ m1 := by
            have : fileError (nm1, ParseResult.failed m1) = some (nm1 ++ ": " ++ m1) := rfl
            rw [this] at hfe1
            exact (Option.some.injEq _ _ ▸ hfe1).symm
          refine ⟨⟨nm1, m1, hfiles1, hpat1, by rw [hpsd, he]⟩, ?_⟩
          intro v hv
          rw [hpsd] at hv
          cases hv

/-! ## Concrete fixtures exercising the aggregation claims -/

/-- A method getX declared on receiver *T. -/
def exFuncDecl : FuncDecl :=
  { doc := some ["// getX doc"],
    recv := some [{ names := ["r"], type := Expr.star (Expr.ident "T") }],
    name := some "getX" }

/-- One file declaring struct T and the method getX on *T. -/
def exFile : GoFile :=
  { name := some "pkg",
    decls := [Decl.genDecl { doc := some ["// T doc"],
                             specs := [Spec.typeSpec ⟨"T", TypeSpecType.structType (some [])⟩] },
              Decl.funcDecl exFuncDecl] }

/-- The harvest ParseSourceDir produces on that one-file directory. -/
def exHarvest : AstVisitor :=
  match ParseSourceDir (fun _ => true) [("a.go", ParseResult.ok exFile)] with
  | Except.ok v => v
  | Except.error _ => {}

theorem exHarvest_ok :
    ParseSourceDir (fun _ => true) [("a.go", ParseResult.ok exFile)] =
      Except.ok exHarvest := rfl

/-- The receiver field of getX as extracted. -/
def exRecvField : Field := { name := "r", typeName := "T", isPointer := true }

/-- The getX operation as harvested. -/
def exOp : Operation :=
  { packageName := "pkg", docLines := ["// getX doc"],
    relatedStruct := some exRecvField, name := "getX" }

/-- C1 witness: in the concrete one-file harvest, the struct named T has
been linked with an entry named getX. -/
theorem crossLinking_witness :
    ∃ s ∈ exHarvest.structs, s.name = exRecvField.typeName ∧
      ∃ o ∈ s.operations, o.name = exOp.name :=
  (crossLinking_after_aggregation (fun _ => true) [("a.go", ParseResult.ok exFile)]
      exHarvest exHarvest_ok).1 exOp (by decide) exRecvField (by decide) (by decide)

/-- C8 witness: the frame property at the concrete one-file harvest. -/
theorem crossLink_frame_property_witness :
    ∃ fs, parseDir (fun _ => true) [("a.go", ParseResult.ok exFile)] = Except.ok fs ∧
      exHarvest.packageName = (harvestFiles fs).packageName ∧
      exHarvest.operations = (harvestFiles fs).operations ∧
      exHarvest.interfaces = (harvestFiles fs).interfaces ∧
      List.Forall₂ frameRel (harvestFiles fs).structs exHarvest.structs :=
  crossLink_frame_property (fun _ => true) [("a.go", ParseResult.ok exFile)]
    exHarvest exHarvest_ok

/-- A directory with one well-formed and one malformed file. -/
def badFiles : List (String × ParseResult) :=
  [("a.go", ParseResult.ok exFile), ("bad.go", ParseResult.failed "expected declaration")]

/-- C2 witness: the malformed file aborts the whole scan on a concrete
directory. -/
theorem parse_failure_witness :
    (∃ nm m, (nm, ParseResult.failed m) ∈ badFiles ∧ (fun _ => true : String → Bool) nm = true ∧
        ParseSourceDir (fun _ => true) badFiles = Except.error (nm ++ ": " ++ m))
  ∧ ∀ v, ParseSourceDir (fun _ => true) badFiles ≠ Except.ok v :=
  parse_failure_all_or_nothing (fun _ => true) badFiles
    ⟨("bad.go", ParseResult.failed "expected declaration"), by decide, rfl,
      "expected declaration", rfl⟩

end GoModel
